import Mathlib

/-!
# Verification of the MariGeoRoute isochrone routing core

Shallow embedding of `Isochrone/algorithms/isobased.py` (class `IsoBased`)
and `WeatherRoutingTool/utils/unit_conversion.py`.

Conventions of the embedding:
* numpy `(M, N)` arrays become `List (List ℚ)` — a list of `M` rows, each a
  list of `N` entries; real/float arithmetic is modelled exactly over `ℚ`.
* per-candidate numpy vectors become `List ℚ`.
* `np.repeat(a, k, axis=1)` becomes replication of each entry of every row;
  `np.tile` becomes list concatenation; `np.linspace` is modelled with the
  exact rational step `(stop - start)/(num - 1)`; `np.sort` is `mergeSort`;
  `np.nanmax` over bin members (which are rationals, never NaN) is the list
  maximum, `none` for an empty bin (scipy returns NaN there, which compares
  unequal to everything and matches nothing in `np.where`).
* datetimes are modelled as rational timestamps (seconds).
* exceptions (`raise ValueError`) become `Except String Unit`; the message
  text follows the source.  (The `raise` of a bare string in
  `check_variant_def` aborts in Python 3 with a `TypeError`; it is still an
  abort, modelled as an `Except.error` carrying the string.)
* the azimuth sentinel `None` that the constructor places in row 0 of
  `azimuth_per_step` is never read by any of the modelled operations; the
  containers are therefore kept monomorphic over `ℚ`.
* CPython `list(set(...))` iteration order is unspecified; it is modelled
  as first-occurrence order (`List.dedup`).  No verified statement depends
  on the order of the surviving columns, only on the surviving set.
* the class body of `IsoBased` defines several methods twice; in Python the
  later definition wins.  The embedding models each method by its concrete
  implementation and models the effective (shadowing) no-op of
  `check_variant_def` separately, see below.
-/

namespace MariGeoRoute

/-! ## Unit conversion (`utils/unit_conversion.py`, lines 12-21) -/

/-- Source: `mps_to_knots(vals): return vals * 3600.0 / 1852.0` -/
def mps_to_knots (vals : ℚ) : ℚ := vals * 3600 / 1852

/-- Source: `knots_to_mps(vals): return vals * 1852.0 / 3600.0` -/
def knots_to_mps (vals : ℚ) : ℚ := vals * 1852 / 3600

/-! ## Basic numpy modelling -/

/-- Model of `np.repeat(l, k)` on a 1-D array: each entry replicated `k`
times in place. -/
def repeatElems (k : ℕ) (l : List α) : List α :=
  (l.map (fun x => List.replicate k x)).flatten

/-- Model of `np.tile(l, n)`: the list concatenated with itself `n` times. -/
def tileList (n : ℕ) (l : List α) : List α :=
  (List.replicate n l).flatten

/-- Model of `np.linspace(a, b, num)` over exact rationals: `num` points
`a + i*(b-a)/(num-1)`. -/
def linspace (a b : ℚ) (num : ℕ) : List ℚ :=
  (List.range num).map (fun i : ℕ => a + (i : ℚ) * ((b - a) / ((num : ℚ) - 1)))

/-- Maximum of a list of rationals (`np.nanmax` over NaN-free data),
`none` on the empty list. -/
def listMax : List ℚ → Option ℚ
  | [] => none
  | x :: xs =>
      match listMax xs with
      | none => some x
      | some m => some (max x m)

/-- Model of `np.mean`. -/
def listMean (l : List ℚ) : ℚ := l.sum / l.length

/-- Pointwise combination of four equal-length vectors (used for the
vectorized `geod.direct` call). -/
def zipWith4 (f : α → β → γ → δ → ε) : List α → List β → List γ → List δ → List ε
  | a :: as, b :: bs, c :: cs, d :: ds => f a b c d :: zipWith4 f as bs cs ds
  | _, _, _, _ => []

/-! ## External geodesic primitive (`geovectorslib.geod`), §2 of the spec:
an ellipsoidal inverse/direct solver, opaque to the core; the embedding
abstracts over it. -/

structure GeodInverseRes where
  azi1 : ℚ
  s12 : ℚ
deriving DecidableEq, Repr

structure GeodDirectRes where
  lat2 : ℚ
  lon2 : ℚ
  azi2 : ℚ
deriving DecidableEq, Repr

structure Geod where
  inverse : ℚ → ℚ → ℚ → ℚ → GeodInverseRes
  direct : ℚ → ℚ → ℚ → ℚ → GeodDirectRes

/-- Move record returned by `check_bearing` (the dictionary with keys
`lat2`, `lon2`, `azi2`; the `iterations` diagnostic entry carries no
routing information and is omitted). -/
structure Move where
  lat2 : List ℚ
  lon2 : List ℚ
  azi2 : List ℚ
deriving DecidableEq, Repr

/-! ## External wind interface (§6 of the spec, consumed in
`get_wind_functions`) -/

structure WindRes where
  twa : List ℚ
  tws : List ℚ
deriving DecidableEq, Repr

structure WeatherCond where
  get_wind_function : (List ℚ × List ℚ) → ℚ → WindRes

/-! ## The IsoBased state (class attributes and `__init__`) -/

structure IsoState where
  lats_per_step : List (List ℚ)
  lons_per_step : List (List ℚ)
  azimuth_per_step : List (List ℚ)
  dist_per_step : List (List ℚ)
  starttime_per_step : List (List ℚ)
  /-- Modelled from the spec: `ShipParams` (module `ship.shipparams`, not in
  the sources) is "engine telemetry per step/candidate, shape-synchronized
  with the above ... reshaped/filtered by the core identically to the
  position arrays"; it is modelled as one more per-step container whose
  `define_variants`/`select`/`flip` act exactly like those of the position
  arrays. -/
  shipparams_per_step : List (List ℚ)
  current_azimuth : List ℚ
  current_variant : List ℚ
  full_dist_traveled : List ℚ
  full_time_traveled : List ℚ
  full_fuel_consumed : List ℚ
  time : List ℚ
  count : ℕ
  is_last_step : Bool
  is_pos_constraint_step : Bool
  start : ℚ × ℚ
  finish : ℚ × ℚ
  start_temp : ℚ × ℚ
  finish_temp : ℚ × ℚ
  gcr_azi_temp : ℚ
  variant_segments : ℕ
  variant_increments_deg : ℚ
  expected_speed_kts : ℚ
  prune_sector_deg_half : ℚ
  prune_segments : ℕ

/-- Source line 404: `return self.lats_per_step[0, :]` -/
def IsoState.get_current_lats (s : IsoState) : List ℚ :=
  s.lats_per_step.getD 0 []

/-- Source line 407: `return self.lons_per_step[0, :]` -/
def IsoState.get_current_lons (s : IsoState) : List ℚ :=
  s.lons_per_step.getD 0 []

/-- Source line 401: `return self.current_variant` (the concrete
definition; a later duplicate stub at line 635 shadows it with `pass`). -/
def IsoState.get_current_azimuth (s : IsoState) : List ℚ :=
  s.current_variant

/-- numpy `shape[0]` of a per-step container. -/
def nrows (c : List (List ℚ)) : ℕ := c.length

/-- numpy `shape[1]` of a (rectangular) per-step container. -/
def ncols (c : List (List ℚ)) : ℕ := (c.getD 0 []).length

/-! ## `check_settings` (lines 421-431) -/

/-- Source `check_settings`: raises when
`variant_segments/2*variant_increments_deg >= prune_sector_deg_half`, when
`variant_segments` is odd, or when `prune_segments` is odd, in that order. -/
def check_settings (s : IsoState) : Except String Unit :=
  if (s.variant_segments : ℚ) / 2 * s.variant_increments_deg ≥ s.prune_sector_deg_half then
    Except.error "Prune sector does not contain all variants. Please adjust settings."
  else if s.variant_segments % 2 ≠ 0 then
    Except.error "Please provide an even number of variant segments."
  else if s.prune_segments % 2 ≠ 0 then
    Except.error "Please provide an even number of prune segments."
  else
    Except.ok ()

/-! ## `check_variant_def` (lines 217-229, and its shadowing no-op
redefinition at lines 623-624) -/

/-- The concrete shape check of lines 217-229: raises when the four
per-step containers disagree on column count, then when they disagree on
row count or the row count differs from `count+1`. -/
def check_variant_def_impl (s : IsoState) : Except String Unit :=
  if ¬ ((ncols s.lats_per_step = ncols s.lons_per_step) ∧
        (ncols s.lats_per_step = ncols s.azimuth_per_step) ∧
        (ncols s.lats_per_step = ncols s.dist_per_step)) then
    Except.error "define_variants: number of columns not matching!"
  else if ¬ ((nrows s.lats_per_step = nrows s.lons_per_step) ∧
        (nrows s.lats_per_step = nrows s.azimuth_per_step) ∧
        (nrows s.lats_per_step = nrows s.dist_per_step) ∧
        (nrows s.lats_per_step = s.count + 1)) then
    Except.error "define_variants: number of rows not matching!"
  else
    Except.ok ()

/-- The effective `check_variant_def`: the class body redefines the method
at lines 623-624 as `pass`, and in Python the later definition wins, so the
method that `define_variants` actually calls does nothing and returns
`None`. -/
def check_variant_def (_ : IsoState) : Except String Unit :=
  Except.ok ()

/-! ## `define_variants` (lines 121-158) -/

/-- Source `define_variants`: branch out for multiple headings.  Every
per-step container is column-replicated `variant_segments+1` times
(`np.repeat(..., axis=1)`), every per-candidate vector entry-replicated,
and `current_variant` is overwritten by the fan of azimuths
`gcr_azimuth_to_finish_temp - delta` with
`delta = np.tile(np.linspace(-vs/2*inc, +vs/2*inc, vs+1), N)`.
The `check_variant_def` call in the middle is the effective no-op above. -/
def define_variants (geod : Geod) (s : IsoState) : IsoState :=
  let nof_input_routes := (s.lats_per_step.getD 0 []).length
  let new_azi := List.zipWith
    (fun la lo => geod.inverse la lo s.finish_temp.1 s.finish_temp.2)
    (s.lats_per_step.getD 0 []) (s.lons_per_step.getD 0 [])
  let k := s.variant_segments + 1
  let delta_hdgs := tileList nof_input_routes
    (linspace (-(s.variant_segments : ℚ) / 2 * s.variant_increments_deg)
      ((s.variant_segments : ℚ) / 2 * s.variant_increments_deg) k)
  { s with
    lats_per_step := s.lats_per_step.map (repeatElems k)
    lons_per_step := s.lons_per_step.map (repeatElems k)
    dist_per_step := s.dist_per_step.map (repeatElems k)
    azimuth_per_step := s.azimuth_per_step.map (repeatElems k)
    starttime_per_step := s.starttime_per_step.map (repeatElems k)
    shipparams_per_step := s.shipparams_per_step.map (repeatElems k)
    full_time_traveled := repeatElems k s.full_time_traveled
    full_fuel_consumed := repeatElems k s.full_fuel_consumed
    full_dist_traveled := repeatElems k s.full_dist_traveled
    time := repeatElems k s.time
    current_variant :=
      List.zipWith (· - ·) (repeatElems k (new_azi.map GeodInverseRes.azi1)) delta_hdgs }

/-- Column replication of a per-step container: same row count, every row
widened from `n` to `n*k` columns, and entry `(r, i*k+j)` of the new
container is entry `(r, i)` of the old one (rows replicated, not
recomputed). -/
def ReplicatedCols (k n : ℕ) (old new : List (List ℚ)) : Prop :=
  new.length = old.length ∧ (∀ row ∈ new, row.length = n * k) ∧
    ∀ r i j, i < n → j < k →
      (new.getD r []).getD (i * k + j) 0 = (old.getD r []).getD i 0

/-! ## Wind query (`get_wind_functions`, lines 412-419, and the wind
record built in `move_boat_direct`, lines 171-174) -/

/-- Source `get_wind_functions`: the weather model is queried once with all
current positions and the single timestamp `self.time[0]`. -/
def get_wind_functions (wt : WeatherCond) (s : IsoState) : WindRes :=
  wt.get_wind_function (s.get_current_lats, s.get_current_lons) (s.time.getD 0 0)

/-- Lines 171-174 of `move_boat_direct`: the wind record handed to the
performance model, with
`wind = dict(tws = tws, twa = twa - self.get_current_azimuth())`. -/
def move_boat_direct_wind (wt : WeatherCond) (s : IsoState) : WindRes :=
  let winds := get_wind_functions wt s
  { tws := winds.tws
    twa := List.zipWith (· - ·) winds.twa s.get_current_azimuth }

/-! ## `check_bearing` (lines 454-496) -/

/-- The condition `np.any(dist_to_dest < dist)` of line 468. -/
def reaching_dest (geod : Geod) (s : IsoState) (dist : List ℚ) : Bool :=
  (List.zipWith
    (fun g d => decide (g.s12 < d))
    (List.zipWith (fun la lo => geod.inverse la lo s.finish_temp.1 s.finish_temp.2)
      s.get_current_lats s.get_current_lons)
    dist).any id

/-- Source `check_bearing`: if ANY candidate would overshoot the temporary
destination, every candidate is pinned to the destination point (with
azimuths recomputed through the inverse geodesic) and the terminal or
position-constraint flag is raised; otherwise all candidates are advanced
with `geod.direct` by their step distances. -/
def check_bearing (geod : Geod) (s : IsoState) (dist : List ℚ) : Move × IsoState :=
  let lats0 := s.get_current_lats
  let lons0 := s.get_current_lons
  let nvariants := lons0.length
  let dist_to_dest := List.zipWith
    (fun la lo => geod.inverse la lo s.finish_temp.1 s.finish_temp.2) lats0 lons0
  if reaching_dest geod s dist then
    let mv : Move :=
      { lat2 := List.replicate nvariants s.finish_temp.1
        lon2 := List.replicate nvariants s.finish_temp.2
        azi2 := dist_to_dest.map GeodInverseRes.azi1 }
    if s.finish_temp.1 = s.finish.1 ∧ s.finish_temp.2 = s.finish.2 then
      (mv, { s with is_last_step := true })
    else
      (mv, { s with is_pos_constraint_step := true })
  else
    let moves := zipWith4 geod.direct lats0 lons0 s.current_variant dist
    ({ lat2 := moves.map GeodDirectRes.lat2
       lon2 := moves.map GeodDirectRes.lon2
       azi2 := moves.map GeodDirectRes.azi2 }, s)

/-! ## `update_position` (lines 507-532) -/

/-- Source `update_position`: prepend the new row to the four position
containers, recompute the progress metric as the fresh geodesic inverse
distance from `start_temp` to each new position, overwrite
`current_variant`/`current_azimuth` with the azimuth of that geodesic, and
zero the progress of constrained candidates (mask assignment
`gcrs[s12][is_constrained] = 0`). -/
def update_position (geod : Geod) (s : IsoState) (mv : Move)
    (is_constrained : List Bool) (dist : List ℚ) : IsoState :=
  let gcrs := List.zipWith
    (fun la lo => geod.inverse s.start_temp.1 s.start_temp.2 la lo) mv.lat2 mv.lon2
  { s with
    lats_per_step := mv.lat2 :: s.lats_per_step
    lons_per_step := mv.lon2 :: s.lons_per_step
    dist_per_step := dist :: s.dist_per_step
    azimuth_per_step := s.current_variant :: s.azimuth_per_step
    current_variant := gcrs.map GeodInverseRes.azi1
    current_azimuth := gcrs.map GeodInverseRes.azi1
    full_dist_traveled :=
      List.zipWith (fun g c => if c then 0 else g.s12) gcrs is_constrained }

/-! ## `pruning` (lines 231-289) and `pruning_gcr_centered` (lines
295-341) -/

/-- scipy `binned_statistic` bin membership: `edges[i] ≤ x < edges[i+1]`,
with the last bin closed on the right. -/
def binMem (edges : List ℚ) (i : ℕ) (x : ℚ) : Bool :=
  decide (edges.getD i 0 ≤ x) &&
    (if i + 2 = edges.length then decide (x ≤ edges.getD (i + 1) 0)
     else decide (x < edges.getD (i + 1) 0))

/-- Candidate indices whose `current_variant` heading falls in bin `i`. -/
def binCandidates (variant : List ℚ) (edges : List ℚ) (i : ℕ) : List ℕ :=
  (List.range variant.length).filter (fun j => binMem edges i (variant.getD j 0))

/-- `bin_stat[i]`: the `np.nanmax` of `full_dist_traveled` over the
candidates binned into bin `i` (`none` for an empty bin, where scipy
returns NaN). -/
def binStat (variant dist : List ℚ) (edges : List ℚ) (i : ℕ) : Option ℚ :=
  listMax ((binCandidates variant edges i).map (fun j => dist.getD j 0))

/-- The trim-branch selection for one bin (lines 245-253): skip a bin whose
statistic is exactly 0, otherwise take
`np.where(full_dist_traveled == bin_stat[i])[0][0]` — the FIRST index in
the WHOLE candidate array whose progress equals the bin maximum; an empty
bin (NaN statistic, matching nothing) is skipped through the caught
`IndexError`. -/
def chosenTrim (variant dist : List ℚ) (edges : List ℚ) (i : ℕ) : Option ℕ :=
  match binStat variant dist edges i with
  | none => none
  | some m =>
      if m = 0 then none
      else (List.range dist.length).find? (fun j => decide (dist.getD j 0 = m))

/-- The surviving index set of one pruning pass, deduplicated
(`idxs = list(set(idxs))`).  Without trim (lines 256-258) every index whose
progress equals some bin statistic survives, with no zero-skip. -/
def pruningIdxs (trim : Bool) (variant dist : List ℚ) (bins : List ℚ) : List ℕ :=
  if trim then
    ((List.range (bins.length - 1)).filterMap (chosenTrim variant dist bins)).dedup
  else
    ((List.range (bins.length - 1)).flatMap (fun i =>
      match binStat variant dist bins i with
      | none => []
      | some m => (List.range dist.length).filter
          (fun j => decide (dist.getD j 0 = m)))).dedup

/-- Column selection `arr[:, idxs]` of a per-step container. -/
def selectCols (idxs : List ℕ) (c : List (List ℚ)) : List (List ℚ) :=
  c.map (fun row => idxs.map (fun j => row.getD j 0))

/-- Vector selection `vec[idxs]`. -/
def selectVec (idxs : List ℕ) (v : List ℚ) : List ℚ :=
  idxs.map (fun j => v.getD j 0)

/-- Source `pruning`: compute the surviving indices from the binned
statistic and reindex every per-step and per-candidate container to them.
(`current_azimuth` is also reassigned from `current_variant[idxs]`.) -/
def pruning (trim : Bool) (bins : List ℚ) (s : IsoState) : IsoState :=
  let idxs := pruningIdxs trim s.current_variant s.full_dist_traveled bins
  { s with
    lats_per_step := selectCols idxs s.lats_per_step
    lons_per_step := selectCols idxs s.lons_per_step
    azimuth_per_step := selectCols idxs s.azimuth_per_step
    dist_per_step := selectCols idxs s.dist_per_step
    shipparams_per_step := selectCols idxs s.shipparams_per_step
    starttime_per_step := selectCols idxs s.starttime_per_step
    current_azimuth := selectVec idxs s.current_variant
    current_variant := selectVec idxs s.current_variant
    full_dist_traveled := selectVec idxs s.full_dist_traveled
    full_time_traveled := selectVec idxs s.full_time_traveled
    full_fuel_consumed := selectVec idxs s.full_fuel_consumed
    time := selectVec idxs s.time }

/-- Source `pruning_gcr_centered`: the pruning symmetry axis is the azimuth
from the auxiliary great-circle point (origin advanced by the mean progress
distance) to the temporary destination; bins are
`np.sort(azi0 - np.linspace(-h, +h, prune_segments+1))`. -/
def pruning_bins_gcr (geod : Geod) (s : IsoState) : List ℚ :=
  let mean_dist := listMean s.full_dist_traveled
  let gcr_point := geod.direct s.start_temp.1 s.start_temp.2 s.gcr_azi_temp mean_dist
  let new_azi := geod.inverse gcr_point.lat2 gcr_point.lon2
    s.finish_temp.1 s.finish_temp.2
  let delta_hdgs := linspace (-s.prune_sector_deg_half) s.prune_sector_deg_half
    (s.prune_segments + 1)
  (delta_hdgs.map (fun d => new_azi.azi1 - d)).mergeSort
    (fun a b => decide (a ≤ b))

def pruning_gcr_centered (geod : Geod) (trim : Bool) (s : IsoState) : IsoState :=
  pruning trim (pruning_bins_gcr geod s) s

/-! ## Termination (`get_final_index`, lines 433-435, and `terminate`,
lines 437-448) -/

/-- Source `get_final_index`: `np.argmax(self.full_dist_traveled)` — the
first index attaining the maximum progress. -/
def get_final_index (s : IsoState) : ℕ :=
  match listMax s.full_dist_traveled with
  | none => 0
  | some m => s.full_dist_traveled.indexOf m

/-- Source `terminate` (the part in the sources): flip every per-step
container along the step axis (`np.flip(..., 0)`); the route extraction
happens in the base class. -/
def terminate (s : IsoState) : IsoState :=
  { s with
    lats_per_step := s.lats_per_step.reverse
    lons_per_step := s.lons_per_step.reverse
    azimuth_per_step := s.azimuth_per_step.reverse
    dist_per_step := s.dist_per_step.reverse
    starttime_per_step := s.starttime_per_step.reverse
    shipparams_per_step := s.shipparams_per_step.reverse }

/-! ## Concrete instances used by witnesses and counterexamples -/

/-- A base state for concrete instantiations: one live candidate at the
origin, default configuration `variant_segments=4`,
`variant_increments_deg=5`, `prune_sector_deg_half=30`,
`prune_segments=4`. -/
def state0 : IsoState :=
  { lats_per_step := [[0]]
    lons_per_step := [[0]]
    azimuth_per_step := [[0]]
    dist_per_step := [[0]]
    starttime_per_step := [[0]]
    shipparams_per_step := [[0]]
    current_azimuth := [0]
    current_variant := [0]
    full_dist_traveled := [0]
    full_time_traveled := [0]
    full_fuel_consumed := [0]
    time := [0]
    count := 0
    is_last_step := false
    is_pos_constraint_step := false
    start := (0, 0)
    finish := (0, 10)
    start_temp := (0, 0)
    finish_temp := (0, 10)
    gcr_azi_temp := 0
    variant_segments := 4
    variant_increments_deg := 5
    expected_speed_kts := 0
    prune_sector_deg_half := 30
    prune_segments := 4 }

/-- A concrete geodesic stub: `inverse` reports azimuth `lat1+lon1` and
distance `lon2-lon1`; `direct` advances the latitude by the distance. -/
def geodC : Geod :=
  { inverse := fun la lo _ lob => ⟨la + lo, lob - lo⟩
    direct := fun la lo az d => ⟨la + d, lo, az⟩ }

/-- A concrete geodesic stub free of rational arithmetic (so that concrete
runs evaluate by `decide`): the inverse distance is 1 from longitude 9 and
10 otherwise; `direct` lands on the recognizable point `(77, 77)`. -/
def geodC2 : Geod :=
  { inverse := fun _ lo _ _ => ⟨3, if lo = 9 then 1 else 10⟩
    direct := fun _ _ _ _ => ⟨77, 77, 77⟩ }

/-- A concrete arithmetic-free geodesic stub for the C5 witness: the
inverse distance equals the target longitude. -/
def geodC5 : Geod :=
  { inverse := fun _ _ _ lob => ⟨0, lob⟩
    direct := fun _ _ _ _ => ⟨0, 0, 0⟩ }

/-- C3 witness state: one candidate at `(1, 2)`. -/
def stateC3 : IsoState :=
  { state0 with lats_per_step := [[1]], lons_per_step := [[2]] }

/-- C2 counterexample state: candidate 0 at `(0, 0)` (far from the
temporary destination `(0, 10)`), candidate 1 at `(0, 9)` (close). -/
def stateC2 : IsoState :=
  { state0 with
    lats_per_step := [[0, 0]]
    lons_per_step := [[0, 9]]
    azimuth_per_step := [[0, 0]]
    dist_per_step := [[0, 0]]
    starttime_per_step := [[0, 0]]
    shipparams_per_step := [[0, 0]]
    current_azimuth := [90, 90]
    current_variant := [90, 90]
    full_dist_traveled := [0, 9]
    full_time_traveled := [0, 0]
    full_fuel_consumed := [0, 0]
    time := [0, 0] }

/-- C4 counterexample weather model: the true wind angle equals the query
timestamp for both candidates. -/
def wtC : WeatherCond :=
  { get_wind_function := fun _ t => { twa := [t, t], tws := [0, 0] } }

/-- C4 counterexample state: the two candidates carry different current
times 0 and 7. -/
def stateC4 : IsoState :=
  { stateC2 with time := [0, 7], current_variant := [0, 0], current_azimuth := [0, 0] }

/-- C5 witness move: candidate 0 moves to `(0, 4)`, candidate 1 to
`(0, 6)`. -/
def moveC5 : Move :=
  { lat2 := [0, 0], lon2 := [4, 6], azi2 := [90, 90] }

/-- C6 failing input: a state whose `lats_per_step` has 1 column while
`lons_per_step` has 2 (a post-expansion column-count mismatch). -/
def stateC6 : IsoState :=
  { state0 with lons_per_step := [[0, 0]] }

/-- C7 counterexample state: three tied candidates heading into the same
pruning sector, `prune_segments = 2`. -/
def stateC7 : IsoState :=
  { state0 with
    lats_per_step := [[0, 0, 0]]
    lons_per_step := [[0, 0, 0]]
    azimuth_per_step := [[0, 0, 0]]
    dist_per_step := [[0, 0, 0]]
    starttime_per_step := [[0, 0, 0]]
    shipparams_per_step := [[0, 0, 0]]
    current_azimuth := [10, 10, 10]
    current_variant := [10, 10, 10]
    full_dist_traveled := [5, 5, 5]
    full_time_traveled := [0, 0, 0]
    full_fuel_consumed := [0, 0, 0]
    time := [0, 0, 0]
    prune_segments := 2
    prune_sector_deg_half := 40 }

/-- C8 witness state: two recorded steps, three candidates with progress
`[1, 3, 2]`. -/
def stateC8 : IsoState :=
  { state0 with
    lats_per_step := [[4, 5, 6], [1, 2, 3]]
    lons_per_step := [[14, 15, 16], [11, 12, 13]]
    azimuth_per_step := [[24, 25, 26], [21, 22, 23]]
    dist_per_step := [[34, 35, 36], [31, 32, 33]]
    starttime_per_step := [[44, 45, 46], [41, 42, 43]]
    shipparams_per_step := [[54, 55, 56], [51, 52, 53]]
    current_azimuth := [0, 0, 0]
    current_variant := [0, 0, 0]
    full_dist_traveled := [1, 3, 2]
    full_time_traveled := [0, 0, 0]
    full_fuel_consumed := [0, 0, 0]
    time := [0, 0, 0] }

end MariGeoRoute

namespace MariGeoRoute

/-! ## Helper lemmas about the numpy models -/

theorem repeatElems_cons (k : ℕ) (x : α) (xs : List α) :
    repeatElems k (x :: xs) = List.replicate k x ++ repeatElems k xs := by
  simp [repeatElems]

theorem repeatElems_length (k : ℕ) (l : List α) :
    (repeatElems k l).length = l.length * k := by
  induction l with
  | nil => simp [repeatElems]
  | cons x xs ih =>
      rw [repeatElems_cons, List.length_append, List.length_replicate, ih,
        List.length_cons, Nat.succ_mul, Nat.add_comm]

theorem repeatElems_getD (k : ℕ) (l : List α) (i j : ℕ) (d : α)
    (hi : i < l.length) (hj : j < k) :
    (repeatElems k l).getD (i * k + j) d = l.getD i d := by
  induction l generalizing i with
  | nil => simp at hi
  | cons x xs ih =>
      rw [repeatElems_cons]
      cases i with
      | zero =>
          have hlt : 0 * k + j < (List.replicate k x).length := by
            simpa using hj
          rw [List.getD_eq_getElem?_getD, List.getElem?_append_left hlt,
            ← List.getD_eq_getElem?_getD]
          simp [List.getD, hj]
      | succ i =>
          have hge : (List.replicate k x).length ≤ (i + 1) * k + j := by
            simp [Nat.succ_mul]; omega
          rw [List.getD_eq_getElem?_getD, List.getElem?_append_right hge,
            ← List.getD_eq_getElem?_getD]
          have harith : (i + 1) * k + j - (List.replicate k x).length = i * k + j := by
            simp [Nat.succ_mul]; omega
          rw [harith, ih i (by simpa using Nat.lt_of_succ_lt_succ (Nat.succ_lt_succ hi))]
          simp [List.getD]

theorem tileList_cons (l : List α) (n : ℕ) :
    tileList (n + 1) l = l ++ tileList n l := by
  simp [tileList, List.replicate_succ]

theorem tileList_length (n : ℕ) (l : List α) :
    (tileList n l).length = n * l.length := by
  induction n with
  | zero => simp [tileList]
  | succ n ih => rw [tileList_cons, List.length_append, ih, Nat.succ_mul, Nat.add_comm]

theorem tileList_getD (n : ℕ) (l : List α) (i j m : ℕ) (d : α)
    (hi : i < n) (hj : j < l.length) (hm : m = i * l.length + j) :
    (tileList n l).getD m d = l.getD j d := by
  subst hm
  induction n generalizing i with
  | zero => omega
  | succ n ih =>
      rw [tileList_cons]
      cases i with
      | zero =>
          have hlt : 0 * l.length + j < l.length := by simpa using hj
          rw [List.getD_eq_getElem?_getD, List.getElem?_append_left hlt,
            ← List.getD_eq_getElem?_getD]
          simp
      | succ i =>
          have hge : l.length ≤ (i + 1) * l.length + j := by
            simp [Nat.succ_mul]; omega
          rw [List.getD_eq_getElem?_getD, List.getElem?_append_right hge,
            ← List.getD_eq_getElem?_getD]
          have harith : (i + 1) * l.length + j - l.length = i * l.length + j := by
            simp [Nat.succ_mul]; omega
          rw [harith, ih i (by omega)]

theorem linspace_length (a b : ℚ) (num : ℕ) : (linspace a b num).length = num := by
  simp [linspace]

theorem linspace_getD (a b : ℚ) (num j : ℕ) (d : ℚ) (hj : j < num) :
    (linspace a b num).getD j d = a + j * ((b - a) / ((num : ℚ) - 1)) := by
  unfold linspace
  rw [List.getD_eq_getElem?_getD, List.getElem?_map]
  have hj' : j < (List.range num).length := by simpa using hj
  rw [List.getElem?_eq_getElem hj']
  simp

theorem zipWith_getD (f : α → β → γ) (l₁ : List α) (l₂ : List β) (i : ℕ)
    (d₁ : α) (d₂ : β) (d₃ : γ) (h₁ : i < l₁.length) (h₂ : i < l₂.length) :
    (List.zipWith f l₁ l₂).getD i d₃ = f (l₁.getD i d₁) (l₂.getD i d₂) := by
  have hlen : i < (List.zipWith f l₁ l₂).length := by
    simp [List.length_zipWith]; omega
  rw [List.getD_eq_getElem?_getD, List.getElem?_eq_getElem hlen]
  simp [List.getElem_zipWith, List.getD_eq_getElem?_getD,
    List.getElem?_eq_getElem h₁, List.getElem?_eq_getElem h₂]

theorem map_getD_of_lt (f : List α → List α) (l : List (List α)) (r : ℕ)
    (hr : r < l.length) : (l.map f).getD r [] = f (l.getD r []) := by
  have hr' : r < (l.map f).length := by simpa using hr
  rw [List.getD_eq_getElem?_getD, List.getElem?_eq_getElem hr',
    List.getD_eq_getElem?_getD, List.getElem?_eq_getElem hr]
  simp

theorem replicatedCols_of_map (k n : ℕ) (old : List (List ℚ))
    (hrect : ∀ row ∈ old, row.length = n) :
    ReplicatedCols k n old (old.map (repeatElems k)) := by
  refine ⟨by simp, ?_, ?_⟩
  · intro row hrow
    rcases List.mem_map.mp hrow with ⟨row₀, hrow₀, rfl⟩
    rw [repeatElems_length, hrect row₀ hrow₀]
  · intro r i j hi hj
    by_cases hr : r < old.length
    · rw [map_getD_of_lt _ _ _ hr]
      have hval : old.getD r [] = old[r] := by
        rw [List.getD_eq_getElem?_getD, List.getElem?_eq_getElem hr]
        rfl
      refine repeatElems_getD k _ i j 0 ?_ hj
      rw [hval, hrect _ (List.getElem_mem hr)]
      exact hi
    · have h1 : (old.map (repeatElems k)).getD r [] = [] := by
        rw [List.getD_eq_getElem?_getD, List.getElem?_eq_none (by simpa using not_lt.mp hr)]
        rfl
      have h2 : old.getD r [] = [] := by
        rw [List.getD_eq_getElem?_getD, List.getElem?_eq_none (not_lt.mp hr)]
        rfl
      rw [h1, h2]
      rfl

theorem listMax_mem {l : List ℚ} {m : ℚ} (h : listMax l = some m) : m ∈ l := by
  induction l with
  | nil => simp [listMax] at h
  | cons x xs ih =>
      rw [listMax] at h
      cases hxs : listMax xs with
      | none => rw [hxs] at h; simp at h; simp [h]
      | some mx =>
          rw [hxs] at h
          simp at h
          rcases max_choice x mx with hc | hc <;> rw [hc] at h
          · simp [h]
          · exact List.mem_cons_of_mem _ (ih (by rw [hxs, h]))

theorem listMax_ne_none (x : ℚ) (xs : List ℚ) : listMax (x :: xs) ≠ none := by
  rw [listMax]
  cases listMax xs <;> simp

theorem le_listMax {l : List ℚ} {m a : ℚ} (h : listMax l = some m) (ha : a ∈ l) :
    a ≤ m := by
  induction l generalizing m with
  | nil => simp at ha
  | cons x xs ih =>
      rw [listMax] at h
      cases hxs : listMax xs with
      | none =>
          rw [hxs] at h
          simp at h
          cases xs with
          | nil =>
              simp at ha
              rw [ha, h]
          | cons y ys => exact absurd hxs (listMax_ne_none y ys)
      | some mx =>
          rw [hxs] at h
          simp at h
          rcases List.mem_cons.mp ha with rfl | hmem
          · rw [← h]; exact le_max_left _ _
          · calc a ≤ mx := ih hxs hmem
              _ ≤ max x mx := le_max_right _ _
              _ = m := h

theorem find?_range_first (p : ℕ → Bool) (n j : ℕ)
    (h : (List.range n).find? p = some j) :
    p j = true ∧ j < n ∧ ∀ i < j, p i = false := by
  induction n with
  | zero => simp [List.range_zero] at h
  | succ n ih =>
      rw [List.range_succ, List.find?_append] at h
      cases hfind : (List.range n).find? p with
      | some j₂ =>
          rw [hfind] at h
          simp at h
          subst h
          obtain ⟨h1, h2, h3⟩ := ih hfind
          exact ⟨h1, by omega, h3⟩
      | none =>
          rw [hfind] at h
          simp at h
          obtain ⟨h1, h2⟩ := h
          subst h2
          refine ⟨h1, by omega, ?_⟩
          intro i hi
          have := List.find?_eq_none.mp hfind i (List.mem_range.mpr hi)
          simpa using this

theorem length_le_of_nodup_lt (l : List ℕ) (n : ℕ) (hnd : l.Nodup)
    (hlt : ∀ x ∈ l, x < n) : l.length ≤ n := by
  classical
  have hsub : l.toFinset ⊆ Finset.range n := fun x hx =>
    Finset.mem_range.mpr (hlt x (List.mem_toFinset.mp hx))
  calc l.length = l.toFinset.card := (List.toFinset_card_of_nodup hnd).symm
    _ ≤ (Finset.range n).card := Finset.card_le_card hsub
    _ = n := Finset.card_range n

theorem zipWith4_getD (f : α → β → γ → δ → ε)
    (as : List α) (bs : List β) (cs : List γ) (ds : List δ) (i : ℕ)
    (da : α) (db : β) (dc : γ) (dd : δ) (de : ε)
    (ha : i < as.length) (hb : i < bs.length) (hc : i < cs.length)
    (hd : i < ds.length) :
    (zipWith4 f as bs cs ds).getD i de =
      f (as.getD i da) (bs.getD i db) (cs.getD i dc) (ds.getD i dd) := by
  induction as generalizing bs cs ds i with
  | nil => simp at ha
  | cons a as ih =>
      cases bs with
      | nil => simp at hb
      | cons b bs =>
          cases cs with
          | nil => simp at hc
          | cons c cs =>
              cases ds with
              | nil => simp at hd
              | cons d ds =>
                  cases i with
                  | zero => rfl
                  | succ i =>
                      rw [zipWith4]
                      simp only [List.getD_cons_succ]
                      exact ih bs cs ds i (by simpa using ha) (by simpa using hb)
                        (by simpa using hc) (by simpa using hd)

theorem cons_getD_succ (x : α) (l : List α) (r : ℕ) (d : α) :
    (x :: l).getD (r + 1) d = l.getD r d := rfl

end MariGeoRoute

namespace MariGeoRoute

/-! ## Claim theorems -/

/-- **C3** — one `VariantExpansion` on a state with `N` live columns leaves
every per-step container with exactly `N × (variant_segments+1)` columns,
rows replicated (not recomputed), and the new current headings of original
candidate `i` are exactly the fan
`center_i − (j − variant_segments/2)·variant_increments_deg` for
`j = 0, …, variant_segments` — i.e. the set
`center − k·inc` for `k = −vs/2 … +vs/2` — where `center_i` is the
great-circle azimuth from the current position of candidate `i` to the
temporary destination. -/
theorem C3_variant_expansion (geod : Geod) (s : IsoState) (n : ℕ)
    (hn : n = (s.lats_per_step.getD 0 []).length)
    (hlon0 : (s.lons_per_step.getD 0 []).length = n)
    (hlats : ∀ row ∈ s.lats_per_step, row.length = n)
    (hlons : ∀ row ∈ s.lons_per_step, row.length = n)
    (hazi : ∀ row ∈ s.azimuth_per_step, row.length = n)
    (hdist : ∀ row ∈ s.dist_per_step, row.length = n)
    (hst : ∀ row ∈ s.starttime_per_step, row.length = n)
    (hsp : ∀ row ∈ s.shipparams_per_step, row.length = n) :
    ReplicatedCols (s.variant_segments + 1) n s.lats_per_step
        (define_variants geod s).lats_per_step ∧
    ReplicatedCols (s.variant_segments + 1) n s.lons_per_step
        (define_variants geod s).lons_per_step ∧
    ReplicatedCols (s.variant_segments + 1) n s.azimuth_per_step
        (define_variants geod s).azimuth_per_step ∧
    ReplicatedCols (s.variant_segments + 1) n s.dist_per_step
        (define_variants geod s).dist_per_step ∧
    ReplicatedCols (s.variant_segments + 1) n s.starttime_per_step
        (define_variants geod s).starttime_per_step ∧
    ReplicatedCols (s.variant_segments + 1) n s.shipparams_per_step
        (define_variants geod s).shipparams_per_step ∧
    (define_variants geod s).current_variant.length = n * (s.variant_segments + 1) ∧
    ∀ i j, i < n → j < s.variant_segments + 1 →
      (define_variants geod s).current_variant.getD (i * (s.variant_segments + 1) + j) 0 =
        (geod.inverse ((s.lats_per_step.getD 0 []).getD i 0)
            ((s.lons_per_step.getD 0 []).getD i 0)
            s.finish_temp.1 s.finish_temp.2).azi1
          - ((j : ℚ) - (s.variant_segments : ℚ) / 2) * s.variant_increments_deg := by
  have hkey :
      (define_variants geod s).current_variant.length = n * (s.variant_segments + 1) ∧
      ∀ i j, i < n → j < s.variant_segments + 1 →
        (define_variants geod s).current_variant.getD (i * (s.variant_segments + 1) + j) 0 =
          (geod.inverse ((s.lats_per_step.getD 0 []).getD i 0)
              ((s.lons_per_step.getD 0 []).getD i 0)
              s.finish_temp.1 s.finish_temp.2).azi1
            - ((j : ℚ) - (s.variant_segments : ℚ) / 2) * s.variant_increments_deg := by
    set vs := s.variant_segments with hvs
    set inc := s.variant_increments_deg with hinc
    set lats0 := s.lats_per_step.getD 0 [] with hlats0
    set lons0 := s.lons_per_step.getD 0 [] with hlons0def
    have hcv : (define_variants geod s).current_variant =
        List.zipWith (· - ·)
          (repeatElems (vs + 1)
            ((List.zipWith (fun la lo => geod.inverse la lo s.finish_temp.1 s.finish_temp.2)
              lats0 lons0).map GeodInverseRes.azi1))
          (tileList lats0.length
            (linspace (-(vs : ℚ) / 2 * inc) ((vs : ℚ) / 2 * inc) (vs + 1))) := rfl
    have hazilen : ((List.zipWith (fun la lo =>
        geod.inverse la lo s.finish_temp.1 s.finish_temp.2) lats0 lons0).map
          GeodInverseRes.azi1).length = n := by
      simp [List.length_zipWith, ← hn, hlon0]
    have hdeltalen : (tileList lats0.length
        (linspace (-(vs : ℚ) / 2 * inc) ((vs : ℚ) / 2 * inc) (vs + 1))).length =
          n * (vs + 1) := by
      rw [tileList_length, linspace_length, ← hn]
    constructor
    · rw [hcv, List.length_zipWith, repeatElems_length, hazilen, hdeltalen]
      simp
    · intro i j hi hj
      have hidx : i * (vs + 1) + j < n * (vs + 1) := by
        calc i * (vs + 1) + j < i * (vs + 1) + (vs + 1) := by omega
        _ = (i + 1) * (vs + 1) := by ring
        _ ≤ n * (vs + 1) := Nat.mul_le_mul_right _ hi
      rw [hcv, zipWith_getD _ _ _ _ 0 0 0
        (by rw [repeatElems_length, hazilen]; exact hidx) (by rw [hdeltalen]; exact hidx)]
      have h1 : (repeatElems (vs + 1)
          ((List.zipWith (fun la lo => geod.inverse la lo s.finish_temp.1 s.finish_temp.2)
            lats0 lons0).map GeodInverseRes.azi1)).getD (i * (vs + 1) + j) 0 =
          (geod.inverse (lats0.getD i 0) (lons0.getD i 0)
            s.finish_temp.1 s.finish_temp.2).azi1 := by
        rw [repeatElems_getD _ _ i j 0 (by rw [hazilen]; exact hi) hj]
        have hi₁ : i < (List.zipWith (fun la lo =>
            geod.inverse la lo s.finish_temp.1 s.finish_temp.2) lats0 lons0).length := by
          simp [List.length_zipWith, ← hn, hlon0]
          omega
        rw [List.getD_eq_getElem?_getD, List.getElem?_map, List.getElem?_eq_getElem hi₁]
        have hi₂ : i < lats0.length := by omega
        have hi₃ : i < lons0.length := by rw [hlon0]; exact hi
        simp only [List.getElem_zipWith, Option.map_some, Option.getD_some]
        rw [List.getD_eq_getElem?_getD, List.getElem?_eq_getElem hi₂,
          List.getD_eq_getElem?_getD, List.getElem?_eq_getElem hi₃]
        rfl
      have h2 : (tileList lats0.length
          (linspace (-(vs : ℚ) / 2 * inc) ((vs : ℚ) / 2 * inc) (vs + 1))).getD
            (i * (vs + 1) + j) 0 =
          -(vs : ℚ) / 2 * inc + (j : ℚ) *
            (((vs : ℚ) / 2 * inc - -(vs : ℚ) / 2 * inc) / (((vs : ℚ) + 1) - 1)) := by
        rw [tileList_getD lats0.length _ i j _ 0 (by omega)
          (by rw [linspace_length]; exact hj) (by rw [linspace_length])]
        rw [linspace_getD _ _ _ _ _ hj]
        push_cast
        ring_nf
      rw [h1, h2]
      rcases Nat.eq_zero_or_pos vs with hvs0 | hvs0
      · have hj0 : j = 0 := by omega
        rw [hvs0, hj0]
        norm_num
      · have hvsq : (vs : ℚ) ≠ 0 := Nat.cast_ne_zero.mpr hvs0.ne'
        field_simp
        ring
  refine ⟨?_, ?_, ?_, ?_, ?_, ?_, hkey.1, hkey.2⟩
  · exact replicatedCols_of_map _ _ _ hlats
  · exact replicatedCols_of_map _ _ _ hlons
  · exact replicatedCols_of_map _ _ _ hazi
  · exact replicatedCols_of_map _ _ _ hdist
  · exact replicatedCols_of_map _ _ _ hst
  · exact replicatedCols_of_map _ _ _ hsp

/-- **C9** — Configuration validation fails (with an error) exactly when
`variant_segments` is odd, or `prune_segments` is odd, or
`variant_segments/2 × variant_increments_deg` is not strictly smaller than
`prune_sector_deg_half`; any configuration satisfying all three conditions
passes. -/
theorem C9_check_settings (s : IsoState) :
    check_settings s = Except.ok () ↔
      (s.variant_segments % 2 = 0 ∧ s.prune_segments % 2 = 0 ∧
        (s.variant_segments : ℚ) / 2 * s.variant_increments_deg < s.prune_sector_deg_half) := by
  unfold check_settings
  split_ifs with h1 h2 h3
  · simp only [reduceCtorEq, false_iff]
    rintro ⟨-, -, hlt⟩
    exact absurd h1 (not_le.mpr hlt)
  · simp only [reduceCtorEq, false_iff]
    rintro ⟨hv, -, -⟩
    exact h2 hv
  · simp only [reduceCtorEq, false_iff]
    rintro ⟨-, hp, -⟩
    exact h3 hp
  · simp only [true_iff]
    push_neg at h2 h3
    exact ⟨h2, h3, lt_of_not_ge h1⟩

/-- **C10** — the two speed-unit conversions are exact mutual inverses over
exact rational arithmetic. -/
theorem C10_unit_conversion_inverse (v : ℚ) :
    knots_to_mps (mps_to_knots v) = v ∧ mps_to_knots (knots_to_mps v) = v := by
  unfold knots_to_mps mps_to_knots
  constructor <;> ring

/-! ## Further helper lemmas -/

theorem map_getD (f : α → β) (l : List α) (j : ℕ) (da : α) (db : β)
    (h : j < l.length) : (l.map f).getD j db = f (l.getD j da) := by
  have h' : j < (l.map f).length := by simpa using h
  rw [List.getD_eq_getElem?_getD, List.getElem?_eq_getElem h',
    List.getD_eq_getElem?_getD, List.getElem?_eq_getElem h]
  simp

theorem zipWith4_length (f : α → β → γ → δ → ε)
    (as : List α) (bs : List β) (cs : List γ) (ds : List δ) :
    (zipWith4 f as bs cs ds).length =
      min (min as.length bs.length) (min cs.length ds.length) := by
  induction as generalizing bs cs ds with
  | nil => simp [zipWith4]
  | cons a as ih =>
      cases bs with
      | nil => simp [zipWith4]
      | cons b bs =>
          cases cs with
          | nil => simp [zipWith4]
          | cons c cs =>
              cases ds with
              | nil => simp [zipWith4]
              | cons d ds =>
                  rw [zipWith4]
                  simp only [List.length_cons, ih]
                  omega

theorem listMax_exists {l : List ℚ} (h : l ≠ []) : ∃ m, listMax l = some m := by
  cases l with
  | nil => exact absurd rfl h
  | cons x xs =>
      cases hx : listMax (x :: xs) with
      | none => exact absurd hx (listMax_ne_none x xs)
      | some m => exact ⟨m, rfl⟩

theorem chosenTrim_lt {variant dist edges : List ℚ} {i j : ℕ}
    (h : chosenTrim variant dist edges i = some j) : j < dist.length := by
  cases hstat : binStat variant dist edges i with
  | none => simp [chosenTrim, hstat] at h
  | some m =>
      by_cases hm : m = 0
      · simp [chosenTrim, hstat, hm] at h
      · simp only [chosenTrim, hstat, if_neg hm] at h
        exact List.mem_range.mp (List.mem_of_find?_eq_some h)

theorem reverse_getD (l : List α) (k : ℕ) (d : α) (hk : k < l.length) :
    l.reverse.getD k d = l.getD (l.length - 1 - k) d := by
  rw [List.getD_eq_getElem?_getD, List.getElem?_reverse hk,
    ← List.getD_eq_getElem?_getD]

/-! ## Remaining claim theorems -/

/-- **C1 (counterexample)** — it is NOT the case that the surviving
candidate chosen for a pruning bin always has its heading inside that bin:
with headings `[10, 50]`, progress `[5, 5]` and bin edges `[0, 40, 80]`,
the candidate chosen for bin 1 (which contains only the heading 50) is
candidate 0, whose heading 10 lies outside bin 1, because the trim branch
searches `np.where(full_dist_traveled == bin_stat[i])` over the WHOLE
candidate array. -/
theorem C1_cex : ¬ (∀ j : ℕ,
    chosenTrim [(10 : ℚ), 50] [5, 5] [0, 40, 80] 1 = some j →
      binMem [(0 : ℚ), 40, 80] 1 (([(10 : ℚ), 50]).getD j 0) = true) := by
  intro h
  have h0 : chosenTrim [(10 : ℚ), 50] [5, 5] [0, 40, 80] 1 = some 0 := by decide
  have hbad := h 0 h0
  revert hbad
  decide

/-- **C1 (amended)** — during a trim pruning pass, a bin whose maximum
progress is exactly 0 contributes no surviving index (and is not by itself
an error); a bin with nonzero maximum `m` contributes the FIRST index in
the whole candidate array (current column order) whose progress equals
`m` — which bounds the progress of every candidate in that bin; when that
first index happens to lie in the bin (in particular whenever `m` occurs at
no earlier column outside the bin) it is the in-bin candidate of maximal
progress with ties broken by first occurrence. -/
theorem C1_pruning_bin_selection (variant dist edges : List ℚ)
    (hlen : variant.length = dist.length) (i : ℕ) :
    (binStat variant dist edges i = some 0 → chosenTrim variant dist edges i = none) ∧
    (∀ m : ℚ, binStat variant dist edges i = some m → m ≠ 0 →
      ∃ j, chosenTrim variant dist edges i = some j ∧ j < dist.length ∧
        dist.getD j 0 = m ∧
        (∀ jp < j, dist.getD jp 0 ≠ m) ∧
        (∀ c ∈ binCandidates variant edges i, dist.getD c 0 ≤ m)) := by
  constructor
  · intro h0
    simp [chosenTrim, h0]
  · intro m hm hm0
    have hmem : m ∈ (binCandidates variant edges i).map (fun j => dist.getD j 0) :=
      listMax_mem hm
    rcases List.mem_map.mp hmem with ⟨c, hc, hcm⟩
    have hcn : c < dist.length := by
      have hcr := List.mem_range.mp (List.mem_of_mem_filter hc)
      omega
    have hsome : ((List.range dist.length).find?
        (fun j => decide (dist.getD j 0 = m))).isSome := by
      rw [List.find?_isSome]
      exact ⟨c, List.mem_range.mpr hcn, by simpa using hcm⟩
    obtain ⟨j, hj⟩ := Option.isSome_iff_exists.mp hsome
    obtain ⟨hp, hjn, hfirst⟩ := find?_range_first _ _ _ hj
    refine ⟨j, ?_, hjn, by simpa using hp, ?_, ?_⟩
    · simp only [chosenTrim, hm, if_neg hm0]
      exact hj
    · intro jp hjp
      have := hfirst jp hjp
      simpa using this
    · intro cc hcc
      exact le_listMax hm (List.mem_map.mpr ⟨cc, hcc, rfl⟩)

/-- C1 witness: with one candidate of heading 10 and progress 5 in the
single bin `[0, 40]`, the hypotheses of `C1_pruning_bin_selection` hold and
it selects index 0. -/
theorem C1_pruning_bin_selection_witness :
    ([(10 : ℚ)].length = [(5 : ℚ)].length) ∧
    binStat [(10 : ℚ)] [5] [0, 40] 0 = some 5 ∧
    ∃ j, chosenTrim [(10 : ℚ)] [5] [0, 40] 0 = some j ∧ j < 1 ∧
      ([(5 : ℚ)].getD j 0 = 5) ∧
      (∀ jp < j, ([(5 : ℚ)].getD jp 0 ≠ 5)) ∧
      (∀ c ∈ binCandidates [(10 : ℚ)] [0, 40] 0, [(5 : ℚ)].getD c 0 ≤ 5) := by
  refine ⟨rfl, by decide, ?_⟩
  exact (C1_pruning_bin_selection [(10 : ℚ)] [5] [0, 40] rfl 0).2 5 (by decide) (by norm_num)

theorem replicate_getD (n j : ℕ) (a d : α) (hj : j < n) :
    (List.replicate n a).getD j d = a := by
  rw [List.getD_eq_getElem?_getD, List.getElem?_eq_getElem (by simpa using hj)]
  simp

/-- **C2 (counterexample)** — it is NOT the case that a candidate whose
distance to the temporary destination is at least its step distance keeps
its default step: with candidate 0 at distance 10 from the destination and
step distance 5, candidate 1 (at distance 1) triggers `reaching_dest`, and
candidate 0 is pinned to the destination longitude 10 instead of being
advanced by `geod.direct` (which would land it at longitude 77). -/
theorem C2_cex : ¬ ((geodC2.inverse 0 0 0 10).s12 < 5 ∨
    (check_bearing geodC2 stateC2 [5, 5]).1.lon2.getD 0 0 =
      (geodC2.direct 0 0 90 5).lon2) := by
  decide

/-- **C2 (amended)** — in `check_bearing`, if NO candidate has
destination distance smaller than its step distance, every candidate is
propagated with `geod.direct` by its own step distance and the flags are
untouched; if ANY candidate does, ALL candidates are pinned exactly to the
temporary destination with azimuths recomputed through the inverse
geodesic, and the terminal-step flag is set when the temporary destination
equals the final destination, otherwise the position-constraint flag is set
(leaving the terminal flag, hence the global search, untouched). -/
theorem C2_check_bearing (geod : Geod) (s : IsoState) (dist : List ℚ)
    (hlat : s.get_current_lats.length = s.get_current_lons.length)
    (hcv : s.current_variant.length = s.get_current_lons.length)
    (hdist : dist.length = s.get_current_lons.length) :
    (reaching_dest geod s dist = false →
      (∀ j < s.get_current_lons.length,
        (check_bearing geod s dist).1.lat2.getD j 0 =
          (geod.direct (s.get_current_lats.getD j 0) (s.get_current_lons.getD j 0)
            (s.current_variant.getD j 0) (dist.getD j 0)).lat2 ∧
        (check_bearing geod s dist).1.lon2.getD j 0 =
          (geod.direct (s.get_current_lats.getD j 0) (s.get_current_lons.getD j 0)
            (s.current_variant.getD j 0) (dist.getD j 0)).lon2 ∧
        (check_bearing geod s dist).1.azi2.getD j 0 =
          (geod.direct (s.get_current_lats.getD j 0) (s.get_current_lons.getD j 0)
            (s.current_variant.getD j 0) (dist.getD j 0)).azi2) ∧
      (check_bearing geod s dist).2 = s) ∧
    (reaching_dest geod s dist = true →
      (∀ j < s.get_current_lons.length,
        (check_bearing geod s dist).1.lat2.getD j 0 = s.finish_temp.1 ∧
        (check_bearing geod s dist).1.lon2.getD j 0 = s.finish_temp.2 ∧
        (check_bearing geod s dist).1.azi2.getD j 0 =
          (geod.inverse (s.get_current_lats.getD j 0) (s.get_current_lons.getD j 0)
            s.finish_temp.1 s.finish_temp.2).azi1) ∧
      ((s.finish_temp.1 = s.finish.1 ∧ s.finish_temp.2 = s.finish.2) →
        (check_bearing geod s dist).2 = { s with is_last_step := true }) ∧
      (¬ (s.finish_temp.1 = s.finish.1 ∧ s.finish_temp.2 = s.finish.2) →
        (check_bearing geod s dist).2 = { s with is_pos_constraint_step := true })) := by
  constructor
  · intro hreach
    have hcb : check_bearing geod s dist =
        ({ lat2 := (zipWith4 geod.direct s.get_current_lats s.get_current_lons
              s.current_variant dist).map GeodDirectRes.lat2
           lon2 := (zipWith4 geod.direct s.get_current_lats s.get_current_lons
              s.current_variant dist).map GeodDirectRes.lon2
           azi2 := (zipWith4 geod.direct s.get_current_lats s.get_current_lons
              s.current_variant dist).map GeodDirectRes.azi2 }, s) := by
      unfold check_bearing
      rw [hreach]
      simp
    have hl2 : (check_bearing geod s dist).1.lat2 =
        (zipWith4 geod.direct s.get_current_lats s.get_current_lons
          s.current_variant dist).map GeodDirectRes.lat2 := by rw [hcb]
    have ho2 : (check_bearing geod s dist).1.lon2 =
        (zipWith4 geod.direct s.get_current_lats s.get_current_lons
          s.current_variant dist).map GeodDirectRes.lon2 := by rw [hcb]
    have ha2 : (check_bearing geod s dist).1.azi2 =
        (zipWith4 geod.direct s.get_current_lats s.get_current_lons
          s.current_variant dist).map GeodDirectRes.azi2 := by rw [hcb]
    have hs2 : (check_bearing geod s dist).2 = s := by rw [hcb]
    have hlen : (zipWith4 geod.direct s.get_current_lats s.get_current_lons
        s.current_variant dist).length = s.get_current_lons.length := by
      rw [zipWith4_length, hlat, hcv, hdist]
      omega
    refine ⟨?_, hs2⟩
    intro j hj
    have hj4 : j < (zipWith4 geod.direct s.get_current_lats s.get_current_lons
        s.current_variant dist).length := by rw [hlen]; exact hj
    have hz := zipWith4_getD geod.direct s.get_current_lats s.get_current_lons
      s.current_variant dist j 0 0 0 0 ⟨0, 0, 0⟩
      (by omega) hj (by omega) (by omega)
    refine ⟨?_, ?_, ?_⟩
    · rw [hl2, map_getD _ _ _ ⟨0, 0, 0⟩ _ hj4, hz]
    · rw [ho2, map_getD _ _ _ ⟨0, 0, 0⟩ _ hj4, hz]
    · rw [ha2, map_getD _ _ _ ⟨0, 0, 0⟩ _ hj4, hz]
  · intro hreach
    have hl2 : (check_bearing geod s dist).1.lat2 =
        List.replicate s.get_current_lons.length s.finish_temp.1 := by
      unfold check_bearing
      rw [hreach]
      by_cases hfin : s.finish_temp.1 = s.finish.1 ∧ s.finish_temp.2 = s.finish.2 <;>
        simp [hfin]
    have ho2 : (check_bearing geod s dist).1.lon2 =
        List.replicate s.get_current_lons.length s.finish_temp.2 := by
      unfold check_bearing
      rw [hreach]
      by_cases hfin : s.finish_temp.1 = s.finish.1 ∧ s.finish_temp.2 = s.finish.2 <;>
        simp [hfin]
    have ha2 : (check_bearing geod s dist).1.azi2 =
        (List.zipWith (fun la lo => geod.inverse la lo
            s.finish_temp.1 s.finish_temp.2)
          s.get_current_lats s.get_current_lons).map GeodInverseRes.azi1 := by
      unfold check_bearing
      rw [hreach]
      by_cases hfin : s.finish_temp.1 = s.finish.1 ∧ s.finish_temp.2 = s.finish.2 <;>
        simp [hfin]
    refine ⟨?_, ?_, ?_⟩
    · intro j hj
      have hzlen : j < (List.zipWith (fun la lo => geod.inverse la lo
          s.finish_temp.1 s.finish_temp.2) s.get_current_lats
            s.get_current_lons).length := by
        rw [List.length_zipWith, hlat]
        omega
      refine ⟨?_, ?_, ?_⟩
      · rw [hl2, replicate_getD _ _ _ _ hj]
      · rw [ho2, replicate_getD _ _ _ _ hj]
      · rw [ha2, map_getD GeodInverseRes.azi1 _ j ⟨0, 0⟩ 0 hzlen,
          zipWith_getD (fun la lo => geod.inverse la lo s.finish_temp.1 s.finish_temp.2)
            s.get_current_lats s.get_current_lons j 0 0 ⟨0, 0⟩ (by omega) hj]
    · intro hfin
      unfold check_bearing
      rw [hreach]
      simp [hfin]
    · intro hfin
      unfold check_bearing
      rw [hreach]
      simp [hfin]

/-- C2 witness: at the concrete state `stateC2` (candidate 1 close to the
destination) the hypotheses of `C2_check_bearing` hold, the reaching branch
fires, and candidate 0 is pinned to the destination `(0, 10)` with the
terminal flag raised. -/
theorem C2_check_bearing_witness :
    stateC2.get_current_lats.length = stateC2.get_current_lons.length ∧
    stateC2.current_variant.length = stateC2.get_current_lons.length ∧
    ([(5 : ℚ), 5].length = stateC2.get_current_lons.length) ∧
    (check_bearing geodC2 stateC2 [5, 5]).1.lat2.getD 0 0 = 0 ∧
    (check_bearing geodC2 stateC2 [5, 5]).1.lon2.getD 0 0 = 10 ∧
    (check_bearing geodC2 stateC2 [5, 5]).2.is_last_step = true := by
  have h := C2_check_bearing geodC2 stateC2 [5, 5] rfl rfl rfl
  have hreach : reaching_dest geodC2 stateC2 [5, 5] = true := by decide
  have hj := (h.2 hreach).1 0 (by decide)
  have hflag := (h.2 hreach).2.1 ⟨rfl, rfl⟩
  refine ⟨rfl, rfl, rfl, hj.1, hj.2.1, ?_⟩
  rw [hflag]

/-- **C4 (counterexample)** — it is NOT the case that the wind model is
queried at each candidate own current time: with per-candidate times
`[0, 7]` and a weather model whose true wind angle equals the query
timestamp, the angle obtained for candidate 1 is 0 (the query used
`time[0]`), not the 7 a query at its own time would give. -/
theorem C4_cex : ¬ ((get_wind_functions wtC stateC4).twa.getD 1 0 =
    (wtC.get_wind_function (stateC4.get_current_lats, stateC4.get_current_lons)
      (stateC4.time.getD 1 0)).twa.getD 1 0) := by
  decide

/-- **C4 (amended)** — the wind model is queried once per step with the
whole vector of current positions and the SINGLE timestamp `time[0]` (the
first candidate entry of the per-candidate time vector), and the relative
wind angle handed to the performance model is that queried true wind angle
minus the candidate current heading. -/
theorem C4_wind_query (wt : WeatherCond) (s : IsoState) (j : ℕ)
    (h₁ : j < (get_wind_functions wt s).twa.length)
    (h₂ : j < s.current_variant.length) :
    (move_boat_direct_wind wt s).twa.getD j 0 =
      (wt.get_wind_function (s.get_current_lats, s.get_current_lons)
        (s.time.getD 0 0)).twa.getD j 0 - s.current_variant.getD j 0 ∧
    (move_boat_direct_wind wt s).tws =
      (wt.get_wind_function (s.get_current_lats, s.get_current_lons)
        (s.time.getD 0 0)).tws := by
  exact ⟨zipWith_getD _ _ _ _ 0 0 0 h₁ h₂, rfl⟩

/-- C4 witness: at `wtC`/`stateC4` the bounds of `C4_wind_query` hold and
the relative angle of candidate 1 evaluates to `0 - 0 = 0`. -/
theorem C4_wind_query_witness :
    1 < (get_wind_functions wtC stateC4).twa.length ∧
    1 < stateC4.current_variant.length ∧
    (move_boat_direct_wind wtC stateC4).twa.getD 1 0 = 0 := by
  have h := C4_wind_query wtC stateC4 1 (by decide) (by decide)
  refine ⟨by decide, by decide, ?_⟩
  rw [h.1]
  norm_num [wtC, stateC4, stateC2, state0]

/-- **C5** — after the `update_position` commit, the progress metric of
every candidate is the geodesic inverse distance from the fixed
route-segment origin `start_temp` to its new position, recomputed fresh
from that position (not accumulated), except that every candidate flagged
by the constraint gate has progress exactly 0; no candidate column is
deleted: the per-candidate vectors keep their lengths and the per-step
containers gain exactly one (prepended) row. -/
theorem C5_update_position (geod : Geod) (s : IsoState) (mv : Move)
    (is_constrained : List Bool) (dist : List ℚ)
    (hlon : mv.lon2.length = mv.lat2.length)
    (hcon : is_constrained.length = mv.lat2.length) :
    (∀ j < mv.lat2.length,
      (update_position geod s mv is_constrained dist).full_dist_traveled.getD j 0 =
        if is_constrained.getD j false then 0
        else (geod.inverse s.start_temp.1 s.start_temp.2
          (mv.lat2.getD j 0) (mv.lon2.getD j 0)).s12) ∧
    (update_position geod s mv is_constrained dist).full_dist_traveled.length
      = mv.lat2.length ∧
    (update_position geod s mv is_constrained dist).time = s.time ∧
    (update_position geod s mv is_constrained dist).full_time_traveled
      = s.full_time_traveled ∧
    (update_position geod s mv is_constrained dist).full_fuel_consumed
      = s.full_fuel_consumed ∧
    (update_position geod s mv is_constrained dist).lats_per_step.length
      = s.lats_per_step.length + 1 ∧
    (update_position geod s mv is_constrained dist).lons_per_step.length
      = s.lons_per_step.length + 1 ∧
    (update_position geod s mv is_constrained dist).dist_per_step.length
      = s.dist_per_step.length + 1 ∧
    (update_position geod s mv is_constrained dist).azimuth_per_step.length
      = s.azimuth_per_step.length + 1 ∧
    (update_position geod s mv is_constrained dist).lats_per_step.getD 0 [] = mv.lat2 ∧
    (update_position geod s mv is_constrained dist).lons_per_step.getD 0 [] = mv.lon2 ∧
    (∀ r, (update_position geod s mv is_constrained dist).lats_per_step.getD (r + 1) []
      = s.lats_per_step.getD r []) := by
  have hglen : (List.zipWith (fun la lo => geod.inverse s.start_temp.1 s.start_temp.2 la lo)
      mv.lat2 mv.lon2).length = mv.lat2.length := by
    rw [List.length_zipWith, hlon]
    omega
  refine ⟨?_, ?_, rfl, rfl, rfl, by simp [update_position], by simp [update_position],
    by simp [update_position], by simp [update_position], rfl, rfl, fun r => rfl⟩
  · intro j hj
    have hfd : (update_position geod s mv is_constrained dist).full_dist_traveled =
        List.zipWith (fun g c => if c then 0 else g.s12)
          (List.zipWith (fun la lo => geod.inverse s.start_temp.1 s.start_temp.2 la lo)
            mv.lat2 mv.lon2) is_constrained := rfl
    have hginner : (List.zipWith
        (fun la lo => geod.inverse s.start_temp.1 s.start_temp.2 la lo)
          mv.lat2 mv.lon2).getD j ⟨0, 0⟩ =
        geod.inverse s.start_temp.1 s.start_temp.2 (mv.lat2.getD j 0) (mv.lon2.getD j 0) :=
      zipWith_getD (fun la lo => geod.inverse s.start_temp.1 s.start_temp.2 la lo)
        mv.lat2 mv.lon2 j 0 0 ⟨0, 0⟩ hj (by omega)
    rw [hfd, zipWith_getD (fun g c => if c then 0 else g.s12)
        (List.zipWith (fun la lo => geod.inverse s.start_temp.1 s.start_temp.2 la lo)
          mv.lat2 mv.lon2) is_constrained j ⟨0, 0⟩ false 0 (by omega) (by omega),
      hginner]
  · have hfd : (update_position geod s mv is_constrained dist).full_dist_traveled =
        List.zipWith (fun g c => if c then 0 else g.s12)
          (List.zipWith (fun la lo => geod.inverse s.start_temp.1 s.start_temp.2 la lo)
            mv.lat2 mv.lon2) is_constrained := rfl
    rw [hfd, List.length_zipWith, hglen, hcon]
    omega

/-- C5 witness: candidate 0 (unconstrained) gets the fresh origin distance
4, candidate 1 (constrained) gets exactly 0 while both columns survive. -/
theorem C5_update_position_witness :
    moveC5.lon2.length = moveC5.lat2.length ∧
    ([false, true].length = moveC5.lat2.length) ∧
    (update_position geodC5 state0 moveC5 [false, true] [4, 6]).full_dist_traveled.getD 0 0
      = 4 ∧
    (update_position geodC5 state0 moveC5 [false, true] [4, 6]).full_dist_traveled.getD 1 0
      = 0 ∧
    (update_position geodC5 state0 moveC5 [false, true] [4, 6]).full_dist_traveled.length
      = 2 := by
  have h := C5_update_position geodC5 state0 moveC5 [false, true] [4, 6] rfl rfl
  refine ⟨rfl, rfl, ?_, ?_, h.2.1⟩
  · rw [h.1 0 (by decide)]
    decide
  · rw [h.1 1 (by decide)]
    decide

/-- **C6 (code bug)** — the shape check that the claim (and the spec)
ascribe to `VariantExpansion` is dead code: the class body redefines
`check_variant_def` as a no-op `pass` at lines 623-624, which in Python
shadows the concrete implementation of lines 217-229, so `define_variants`
raises nothing on a column-count mismatch.  At the mismatched state
`stateC6` (1 `lats` column vs 2 `lons` columns) the effective method
succeeds while the shadowed implementation would have raised the
column-mismatch error. -/
theorem C6_shape_check_shadowed :
    check_variant_def stateC6 = Except.ok () ∧
    check_variant_def_impl stateC6 =
      Except.error "define_variants: number of columns not matching!" := by
  constructor
  · rfl
  · rfl

/-- C3 witness: with one candidate at `(1, 2)`, `variant_segments = 4` and
`variant_increments_deg = 5`, the expansion hypotheses hold and the heading
of column 1 is `center + 5 = (1 + 2) - (1 - 2)·5 = 8`. -/
theorem C3_variant_expansion_witness :
    ((1 : ℕ) = (stateC3.lats_per_step.getD 0 []).length) ∧
    ((stateC3.lons_per_step.getD 0 []).length = 1) ∧
    (define_variants geodC stateC3).current_variant.getD 1 0 = 8 := by
  have h := C3_variant_expansion geodC stateC3 1 rfl rfl
    (by decide) (by decide) (by decide) (by decide) (by decide) (by decide)
  refine ⟨rfl, rfl, ?_⟩
  have h8 : (define_variants geodC stateC3).current_variant.getD 1 0 =
      (geodC.inverse ((stateC3.lats_per_step.getD 0 []).getD 0 0)
          ((stateC3.lons_per_step.getD 0 []).getD 0 0)
          stateC3.finish_temp.1 stateC3.finish_temp.2).azi1
        - ((1 : ℚ) - (stateC3.variant_segments : ℚ) / 2) * stateC3.variant_increments_deg :=
    h.2.2.2.2.2.2.2 0 1 (by decide) (by decide)
  rw [h8]
  norm_num [geodC, stateC3, state0]

/-- **C7 (counterexample)** — it is NOT the case that every pruning pass
shrinks the candidate set to at most `prune_segments` columns: a non-trim
pass (`trim=False`) over the bins `[-20, 20, 60]` (the `prune_segments+1 =
3` sorted edges the gcr-centered construction yields for
`prune_sector_deg_half = 40` around azimuth 20) keeps all three tied
candidates although `prune_segments = 2`. -/
theorem C7_cex :
    ([(-20 : ℚ), 20, 60].length = stateC7.prune_segments + 1) ∧
    ¬ ((pruning false [(-20 : ℚ), 20, 60] stateC7).full_dist_traveled.length ≤
        stateC7.prune_segments) := by
  decide

/-- **C7 (amended)** — every pruning pass with trim enabled (the
gcr-centered pass the step loop performs) reindexes EVERY per-step and
per-candidate container to one common surviving index list, whose length is
at most `prune_segments` and at most the pre-pruning column count; without
trim the result can exceed `prune_segments` (see the counterexample) but
the same reindexing still applies. -/
theorem C7_pruning_trim (geod : Geod) (s : IsoState) :
    ∃ idxs : List ℕ,
      idxs.Nodup ∧
      (∀ x ∈ idxs, x < s.full_dist_traveled.length) ∧
      idxs.length ≤ s.prune_segments ∧
      idxs.length ≤ s.full_dist_traveled.length ∧
      (pruning_gcr_centered geod true s).lats_per_step
        = selectCols idxs s.lats_per_step ∧
      (pruning_gcr_centered geod true s).lons_per_step
        = selectCols idxs s.lons_per_step ∧
      (pruning_gcr_centered geod true s).azimuth_per_step
        = selectCols idxs s.azimuth_per_step ∧
      (pruning_gcr_centered geod true s).dist_per_step
        = selectCols idxs s.dist_per_step ∧
      (pruning_gcr_centered geod true s).starttime_per_step
        = selectCols idxs s.starttime_per_step ∧
      (pruning_gcr_centered geod true s).shipparams_per_step
        = selectCols idxs s.shipparams_per_step ∧
      (pruning_gcr_centered geod true s).current_variant
        = selectVec idxs s.current_variant ∧
      (pruning_gcr_centered geod true s).current_azimuth
        = selectVec idxs s.current_variant ∧
      (pruning_gcr_centered geod true s).full_dist_traveled
        = selectVec idxs s.full_dist_traveled ∧
      (pruning_gcr_centered geod true s).full_time_traveled
        = selectVec idxs s.full_time_traveled ∧
      (pruning_gcr_centered geod true s).full_fuel_consumed
        = selectVec idxs s.full_fuel_consumed ∧
      (pruning_gcr_centered geod true s).time = selectVec idxs s.time ∧
      (∀ row ∈ (pruning_gcr_centered geod true s).lats_per_step,
        row.length = idxs.length) ∧
      (pruning_gcr_centered geod true s).full_dist_traveled.length = idxs.length := by
  have hbinslen : (pruning_bins_gcr geod s).length = s.prune_segments + 1 := by
    simp [pruning_bins_gcr, linspace_length]
  have hidx : pruningIdxs true s.current_variant s.full_dist_traveled
      (pruning_bins_gcr geod s) =
      ((List.range ((pruning_bins_gcr geod s).length - 1)).filterMap
        (chosenTrim s.current_variant s.full_dist_traveled
          (pruning_bins_gcr geod s))).dedup := rfl
  have hnodup : (pruningIdxs true s.current_variant s.full_dist_traveled
      (pruning_bins_gcr geod s)).Nodup := by
    rw [hidx]
    exact List.nodup_dedup _
  have hmem : ∀ x ∈ pruningIdxs true s.current_variant s.full_dist_traveled
      (pruning_bins_gcr geod s), x < s.full_dist_traveled.length := by
    intro x hx
    rw [hidx] at hx
    rcases List.mem_filterMap.mp (List.mem_dedup.mp hx) with ⟨i, -, hc⟩
    exact chosenTrim_lt hc
  refine ⟨pruningIdxs true s.current_variant s.full_dist_traveled
      (pruning_bins_gcr geod s),
    hnodup, hmem, ?_, ?_, rfl, rfl, rfl, rfl, rfl, rfl, rfl, rfl, rfl, rfl, rfl, rfl,
    ?_, ?_⟩
  · calc (pruningIdxs true s.current_variant s.full_dist_traveled
        (pruning_bins_gcr geod s)).length
        ≤ ((List.range ((pruning_bins_gcr geod s).length - 1)).filterMap
          (chosenTrim s.current_variant s.full_dist_traveled
            (pruning_bins_gcr geod s))).length := by
          rw [hidx]
          exact (List.dedup_sublist _).length_le
    _ ≤ (List.range ((pruning_bins_gcr geod s).length - 1)).length :=
          List.length_filterMap_le _ _
    _ = (pruning_bins_gcr geod s).length - 1 := List.length_range _
    _ ≤ s.prune_segments := by rw [hbinslen]; omega
  · exact length_le_of_nodup_lt _ _ hnodup hmem
  · intro row hrow
    have hrow' : row ∈ selectCols (pruningIdxs true s.current_variant
        s.full_dist_traveled (pruning_bins_gcr geod s)) s.lats_per_step := hrow
    simp only [selectCols, List.mem_map] at hrow'
    rcases hrow' with ⟨r, -, rfl⟩
    simp
  · show (selectVec (pruningIdxs true s.current_variant s.full_dist_traveled
        (pruning_bins_gcr geod s)) s.full_dist_traveled).length = _
    simp [selectVec]

/-- **C8** — at termination every per-step container is reversed along the
step axis (row `k` of the flipped container is row `M-1-k` of the
newest-first one, so row 0 becomes the departure row), and
`get_final_index` returns a valid column index whose
`cumulative_distance_from_start` is maximal among the surviving
candidates. -/
theorem C8_terminate (s : IsoState) (hne : s.full_dist_traveled ≠ []) :
    (∀ k < s.lats_per_step.length,
      (terminate s).lats_per_step.getD k [] =
        s.lats_per_step.getD (s.lats_per_step.length - 1 - k) []) ∧
    (∀ k < s.lons_per_step.length,
      (terminate s).lons_per_step.getD k [] =
        s.lons_per_step.getD (s.lons_per_step.length - 1 - k) []) ∧
    (∀ k < s.azimuth_per_step.length,
      (terminate s).azimuth_per_step.getD k [] =
        s.azimuth_per_step.getD (s.azimuth_per_step.length - 1 - k) []) ∧
    (∀ k < s.dist_per_step.length,
      (terminate s).dist_per_step.getD k [] =
        s.dist_per_step.getD (s.dist_per_step.length - 1 - k) []) ∧
    (∀ k < s.starttime_per_step.length,
      (terminate s).starttime_per_step.getD k [] =
        s.starttime_per_step.getD (s.starttime_per_step.length - 1 - k) []) ∧
    (∀ k < s.shipparams_per_step.length,
      (terminate s).shipparams_per_step.getD k [] =
        s.shipparams_per_step.getD (s.shipparams_per_step.length - 1 - k) []) ∧
    get_final_index s < s.full_dist_traveled.length ∧
    (∀ j < s.full_dist_traveled.length,
      s.full_dist_traveled.getD j 0 ≤
        s.full_dist_traveled.getD (get_final_index s) 0) := by
  obtain ⟨m, hm⟩ := listMax_exists hne
  have hmemm : m ∈ s.full_dist_traveled := listMax_mem hm
  have hfin : get_final_index s = s.full_dist_traveled.indexOf m := by
    simp [get_final_index, hm]
  have hlt : s.full_dist_traveled.indexOf m < s.full_dist_traveled.length :=
    List.indexOf_lt_length.mpr hmemm
  have hval : s.full_dist_traveled.getD (get_final_index s) 0 = m := by
    rw [hfin, List.getD_eq_getElem?_getD, List.getElem?_eq_getElem hlt]
    simp only [Option.getD_some]
    exact List.getElem_indexOf hlt
  refine ⟨?_, ?_, ?_, ?_, ?_, ?_, ?_, ?_⟩
  · intro k hk; exact reverse_getD _ _ _ hk
  · intro k hk; exact reverse_getD _ _ _ hk
  · intro k hk; exact reverse_getD _ _ _ hk
  · intro k hk; exact reverse_getD _ _ _ hk
  · intro k hk; exact reverse_getD _ _ _ hk
  · intro k hk; exact reverse_getD _ _ _ hk
  · rw [hfin]; exact hlt
  · intro j hj
    rw [hval]
    have hmemj : s.full_dist_traveled.getD j 0 ∈ s.full_dist_traveled := by
      rw [List.getD_eq_getElem?_getD, List.getElem?_eq_getElem hj]
      simp only [Option.getD_some]
      exact List.getElem_mem hj
    exact le_listMax hm hmemj

/-- C8 witness: at `stateC8` (two recorded rows, progress `[1, 3, 2]`)
the flipped `lats` rows swap, the winning index is valid, and it dominates
the progress of column 0. -/
theorem C8_terminate_witness :
    stateC8.full_dist_traveled ≠ [] ∧
    (terminate stateC8).lats_per_step.getD 0 [] = [1, 2, 3] ∧
    (terminate stateC8).lats_per_step.getD 1 [] = [4, 5, 6] ∧
    get_final_index stateC8 < 3 ∧
    stateC8.full_dist_traveled.getD 0 0 ≤
      stateC8.full_dist_traveled.getD (get_final_index stateC8) 0 := by
  have h := C8_terminate stateC8 (by decide)
  refine ⟨by decide, ?_, ?_, h.2.2.2.2.2.2.1, h.2.2.2.2.2.2.2 0 (by decide)⟩
  · rw [h.1 0 (by decide)]
    decide
  · rw [h.1 1 (by decide)]
    decide

end MariGeoRoute
